import Mathlib

/-!
A shallow embedding of the Knight's Tour solver (Board.cpp / Solver.cpp) and
proofs about it.  C++ `int` coordinates and cell values are modelled as `Int`,
`size_t` quantities as `Nat`, and the board's flat `std::vector<int>` as a
`List Int` indexed by `row * width + col`.
-/

set_option linter.constructorNameAsVariable false
set_option linter.unusedVariables false

namespace KnightsTour

/-- A `Move` is an (row, col) pair, as in Board.h. -/
structure Move where
  row : Int
  col : Int
deriving DecidableEq, Repr

/-- The board: a rectangular grid storing a visit order per cell
(0 = unvisited), as in Board.h / Board.cpp. -/
structure Board where
  width : Nat
  height : Nat
  cells : List Int
deriving DecidableEq, Repr

/-- `Board::Board(width, height)`: a fresh board with all cells 0.
(The constructor's dimension guards throw; claims only use in-range sizes.) -/
def Board.create (width height : Nat) : Board :=
  ⟨width, height, List.replicate (width * height) 0⟩

/-- `Board::size()` = width * height. -/
def Board.size (b : Board) : Nat := b.width * b.height

/-- `Board::isValid(row, col)`: bounds check. -/
def Board.isValid (b : Board) (row col : Int) : Bool :=
  decide (0 ≤ row) && decide (row < (b.height : Int)) &&
  decide (0 ≤ col) && decide (col < (b.width : Int))

/-- `Board::toIndex(row, col)` = row * width + col (callers pre-validate, so
the `toNat` truncation on negatives is never observable). -/
def Board.toIndex (b : Board) (row col : Int) : Nat :=
  row.toNat * b.width + col.toNat

/-- `Board::at(row, col)`: cell read.  The C++ version throws when out of
range; in the code all reads are guarded by `isValid`, so we use a total
read with default 0. -/
def Board.get (b : Board) (row col : Int) : Int :=
  b.cells.getD (b.toIndex row col) 0

/-- `Board::set(row, col, moveNumber)`: cell write (guarded by `isValid` at
all call sites in the code; `List.set` is a no-op out of range). -/
def Board.set (b : Board) (row col : Int) (moveNumber : Int) : Board :=
  { b with cells := b.cells.set (b.toIndex row col) moveNumber }

/-- `Board::clear()`: reset every cell to 0. -/
def Board.clear (b : Board) : Board :=
  { b with cells := List.replicate (b.width * b.height) 0 }

/-- `Board::isVisited(row, col)`: `at(row, col) != 0`. -/
def Board.isVisited (b : Board) (row col : Int) : Bool :=
  b.get row col != 0

/-- The eight knight offsets, in the order of `Board::KNIGHT_MOVES`. -/
def KNIGHT_MOVES : List Move :=
  [⟨-2, -1⟩, ⟨-2, 1⟩, ⟨-1, -2⟩, ⟨-1, 2⟩, ⟨1, -2⟩, ⟨1, 2⟩, ⟨2, -1⟩, ⟨2, 1⟩]

/-- `Board::getValidMoves(row, col, onlyUnvisited)`: the in-bounds knight
destinations, optionally filtered to unvisited ones, in offset order. -/
def Board.getValidMoves (b : Board) (row col : Int) (onlyUnvisited : Bool) :
    List Move :=
  KNIGHT_MOVES.filterMap fun m =>
    let newRow := row + m.row
    let newCol := col + m.col
    if b.isValid newRow newCol && (!onlyUnvisited || !b.isVisited newRow newCol)
    then some ⟨newRow, newCol⟩ else none

/-- `Board::countValidMoves(row, col)`: allocation-free count of in-bounds
unvisited knight destinations. -/
def Board.countValidMoves (b : Board) (row col : Int) : Nat :=
  KNIGHT_MOVES.foldl
    (fun count m =>
      let newRow := row + m.row
      let newCol := col + m.col
      if b.isValid newRow newCol && !b.isVisited newRow newCol
      then count + 1 else count) 0

/-- `TourType` from Solver.h. -/
inductive TourType where
  | OPEN
  | CLOSED
deriving DecidableEq, Repr

/-- The solver state: the board it owns plus path, backtrack counter and the
parameters of the current attempt (fields of class `Solver`). -/
structure Solver where
  board : Board
  path : List Move
  backtrackCount : Nat
  startRow : Int
  startCol : Int
  tourType : TourType
deriving DecidableEq, Repr

/-- `Solver::Solver(board)`: fresh solver on a board. -/
def Solver.create (b : Board) : Solver :=
  ⟨b, [], 0, 0, 0, TourType.OPEN⟩

/-- `Solver::reset()`. -/
def Solver.reset (s : Solver) : Solver :=
  { s with board := s.board.clear, path := [], backtrackCount := 0 }

/-- `Solver::isSolution(moveNumber)`.  `path_.back()` is modelled with
`getLastD` (the search keeps the path nonempty whenever this runs). -/
def Solver.isSolution (s : Solver) (moveNumber : Int) : Bool :=
  if moveNumber != (s.board.size : Int) + 1 then false
  else if s.tourType = TourType.OPEN then true
  else
    let lastMove := s.path.getLastD ⟨0, 0⟩
    (s.board.getValidMoves lastMove.row lastMove.col false).any fun m =>
      m.row == s.startRow && m.col == s.startCol

/-- `Solver::countAvailableMoves(row, col)` =
`getValidMoves(row, col, true).size()`. -/
def Solver.countAvailableMoves (s : Solver) (row col : Int) : Nat :=
  (s.board.getValidMoves row col true).length

/-- `Solver::calculateDegree(move)`. -/
def Solver.calculateDegree (s : Solver) (m : Move) : Nat :=
  s.countAvailableMoves m.row m.col

/-- The `distanceFromCenter` helper inside `Solver::sortMoves`. -/
def Solver.distanceFromCenter (s : Solver) (m : Move) : Nat :=
  (m.row - (s.board.height : Int) / 2).natAbs +
  (m.col - (s.board.width : Int) / 2).natAbs

/-- The strict comparator passed to `std::sort` in `Solver::sortMoves`. -/
def Solver.moveCmp (s : Solver) (a b : Move) : Bool :=
  let degreeA := s.calculateDegree a
  let degreeB := s.calculateDegree b
  if degreeA != degreeB then decide (degreeA < degreeB)
  else decide (s.distanceFromCenter a > s.distanceFromCenter b)

/-- The non-strict order induced by `moveCmp` (`a` may come before `b` iff
`¬ moveCmp b a`), as a Prop for `List.insertionSort`. -/
def Solver.movePrec (s : Solver) (a b : Move) : Prop :=
  (!s.moveCmp b a) = true

instance (s : Solver) : DecidableRel s.movePrec := fun a b =>
  inferInstanceAs (Decidable ((!s.moveCmp b a) = true))

/-- `Solver::sortMoves(moves)`.  `std::sort` guarantees exactly a permutation
of the input that is sorted for the comparator (order among equivalent
elements unspecified); we model it by a concrete sort satisfying that
contract. -/
def Solver.sortMoves (s : Solver) (moves : List Move) : List Move :=
  List.insertionSort s.movePrec moves

/-- `Solver::createsDeadEnd(move, moveNumber)`: tentatively place the move,
check whether some unvisited neighbor of it would be left with no moves, then
undo the placement.  Returns the flag and the board as the C++ member leaves
it (set then re-set to 0). -/
def Solver.createsDeadEnd (s : Solver) (move : Move) (moveNumber : Int) :
    Bool × Board :=
  let b1 := s.board.set move.row move.col moveNumber
  let neighbors := b1.getValidMoves move.row move.col true
  let hasDeadEnd := neighbors.any fun n =>
    (b1.getValidMoves n.row n.col true).length == 0
  (hasDeadEnd, b1.set move.row move.col 0)

/-- The `for (const auto& move : validMoves)` loop of `Solver::backtrack`:
`recur` is the recursive call made one level deeper, and `numMoves` is the
size of the full candidate vector, checked by the `validMoves.size() > 1`
prune guard on every iteration. -/
def Solver.tryMoves (recur : Solver → Int → Int → Int → Bool × Solver)
    (s : Solver) (moves : List Move) (numMoves : Nat) (moveNumber : Int) :
    Bool × Solver :=
  match moves with
  | [] => (false, s)
  | move :: rest =>
    if numMoves > 1 && (s.createsDeadEnd move moveNumber).1 then
      Solver.tryMoves recur
        { s with board := (s.createsDeadEnd move moveNumber).2 }
        rest numMoves moveNumber
    else
      let s1 : Solver := { s with
        board := s.board.set move.row move.col moveNumber,
        path := s.path ++ [move] }
      let result := recur s1 move.row move.col (moveNumber + 1)
      if result.1 then (true, result.2)
      else
        let s2 := result.2
        let s3 : Solver := { s2 with
          board := s2.board.set move.row move.col 0,
          path := s2.path.dropLast,
          backtrackCount := s2.backtrackCount + 1 }
        Solver.tryMoves recur s3 rest numMoves moveNumber

/-- The body of `Solver::backtrack`, fuel-indexed.  The C++ recursion
consumes one unvisited cell per level, so its depth from `solve` (which
starts at move 2 with one cell placed) is at most `board.size`; `solve`
below supplies fuel `board.size + 1`, which is therefore never exhausted on
any run the C++ program performs.  Running out of fuel returns failure with
the state unchanged. -/
def Solver.backtrackF (s : Solver) (fuel : Nat) (row col : Int)
    (moveNumber : Int) : Bool × Solver :=
  match fuel with
  | 0 => (false, s)
  | fuel + 1 =>
    if s.isSolution moveNumber then (true, s)
    else
      let validMoves := s.board.getValidMoves row col true
      let sorted := s.sortMoves validMoves
      Solver.tryMoves (fun s' r c k => Solver.backtrackF s' fuel r c k)
        s sorted sorted.length moveNumber

/-- `Solver::solve(startRow, startCol, type)`. -/
def Solver.solve (s : Solver) (startRow startCol : Int) (type : TourType) :
    Bool × Solver :=
  if !s.board.isValid startRow startCol then (false, s)
  else
    let b := s.board.clear
    let s1 : Solver :=
      { board := b.set startRow startCol 1,
        path := [⟨startRow, startCol⟩],
        backtrackCount := 0,
        startRow := startRow,
        startCol := startCol,
        tourType := type }
    s1.backtrackF (b.size + 1) startRow startCol 2

/-- A single legal knight step between two positions:
(|drow|, |dcol|) is (2,1) or (1,2), as tested in `Solver::validatePath`. -/
def knightStep (p q : Move) : Bool :=
  let rowDiff := (q.row - p.row).natAbs
  let colDiff := (q.col - p.col).natAbs
  (rowDiff == 2 && colDiff == 1) || (rowDiff == 1 && colDiff == 2)

/-- The uniqueness loop of `Solver::validatePath`: walk the path, rejecting
out-of-bounds positions and positions whose bitmap slot is already set. -/
def checkUnique (b : Board) : List Move → List Bool → Bool
  | [], _ => true
  | m :: rest, visited =>
    if !b.isValid m.row m.col then false
    else
      let idx := b.toIndex m.row m.col
      if visited.getD idx false then false
      else checkUnique b rest (visited.set idx true)

/-- `Solver::validatePath()`. -/
def Solver.validatePath (s : Solver) : Bool :=
  if s.path.isEmpty then false
  else if s.path.length != s.board.size then false
  else if !checkUnique s.board s.path (List.replicate s.board.size false) then
    false
  else if !((s.path.zip s.path.tail).all fun pq => knightStep pq.1 pq.2) then
    false
  else if s.tourType = TourType.CLOSED && s.path.length > 1 then
    knightStep (s.path.getLastD ⟨0, 0⟩) (s.path.headD ⟨0, 0⟩)
  else true

/-- `PathStatistics` from Solver.h.  The C++ `double` average is modelled as
an exact rational (all inputs are integers). -/
structure PathStatistics where
  totalMoves : Nat
  cornerVisits : Nat
  edgeVisits : Nat
  centerVisits : Nat
  averageDistanceFromCenter : ℚ
deriving DecidableEq, Repr

/-- `Solver::getPathStatistics()`. -/
def Solver.getPathStatistics (s : Solver) : PathStatistics :=
  if s.path = [] then
    { totalMoves := s.path.length, cornerVisits := 0, edgeVisits := 0,
      centerVisits := 0, averageDistanceFromCenter := 0 }
  else
    let centerRow := (s.board.height : Int) / 2
    let centerCol := (s.board.width : Int) / 2
    let maxRow := (s.board.height : Int) - 1
    let maxCol := (s.board.width : Int) - 1
    let isCorner := fun (m : Move) =>
      (m.row == 0 && m.col == 0) || (m.row == 0 && m.col == maxCol) ||
      (m.row == maxRow && m.col == 0) || (m.row == maxRow && m.col == maxCol)
    let isEdge := fun (m : Move) =>
      !isCorner m &&
      (m.row == 0 || m.row == maxRow || m.col == 0 || m.col == maxCol)
    let totalDistance : ℚ := s.path.foldl
      (fun acc m =>
        acc + ((m.row - centerRow).natAbs + (m.col - centerCol).natAbs : ℚ)) 0
    { totalMoves := s.path.length,
      cornerVisits := (s.path.filter isCorner).length,
      edgeVisits := (s.path.filter isEdge).length,
      centerVisits :=
        (s.path.filter fun m => !isCorner m && !isEdge m).length,
      averageDistanceFromCenter := totalDistance / (s.path.length : ℚ) }

/-! ### Basic board lemmas -/

theorem Board.isValid_iff {b : Board} {row col : Int} :
    b.isValid row col = true ↔
      0 ≤ row ∧ row < (b.height : Int) ∧ 0 ≤ col ∧ col < (b.width : Int) := by
  simp [Board.isValid, and_assoc]

theorem Board.width_pos_of_isValid {b : Board} {row col : Int}
    (h : b.isValid row col = true) : 0 < b.width := by
  rcases Board.isValid_iff.mp h with ⟨_, _, h3, h4⟩
  by_contra hw
  have : b.width = 0 := by omega
  rw [this] at h4
  omega

theorem Board.toIndex_lt {b : Board} {row col : Int}
    (h : b.isValid row col = true) : b.toIndex row col < b.width * b.height := by
  rcases Board.isValid_iff.mp h with ⟨h1, h2, h3, h4⟩
  have hr : row.toNat < b.height := by omega
  have hc : col.toNat < b.width := by omega
  have : row.toNat * b.width + col.toNat < (row.toNat + 1) * b.width := by
    rw [Nat.succ_mul]
    omega
  have : (row.toNat + 1) * b.width ≤ b.height * b.width := by
    exact Nat.mul_le_mul_right _ (by omega)
  unfold Board.toIndex
  calc row.toNat * b.width + col.toNat < (row.toNat + 1) * b.width := by
        rw [Nat.succ_mul]; omega
    _ ≤ b.height * b.width := Nat.mul_le_mul_right _ (by omega)
    _ = b.width * b.height := Nat.mul_comm _ _

theorem Board.toIndex_inj {b : Board} {r1 c1 r2 c2 : Int}
    (h1 : b.isValid r1 c1 = true) (h2 : b.isValid r2 c2 = true)
    (h : b.toIndex r1 c1 = b.toIndex r2 c2) : r1 = r2 ∧ c1 = c2 := by
  rcases Board.isValid_iff.mp h1 with ⟨a1, a2, a3, a4⟩
  rcases Board.isValid_iff.mp h2 with ⟨b1, b2, b3, b4⟩
  have hc1 : c1.toNat < b.width := by omega
  have hc2 : c2.toNat < b.width := by omega
  unfold Board.toIndex at h
  have hrow : r1.toNat = r2.toNat := by
    rcases Nat.lt_trichotomy r1.toNat r2.toNat with hl | he | hg
    · exfalso
      have : r1.toNat * b.width + c1.toNat < r2.toNat * b.width := by
        have : (r1.toNat + 1) * b.width ≤ r2.toNat * b.width :=
          Nat.mul_le_mul_right _ (by omega)
        rw [Nat.succ_mul] at this
        omega
      omega
    · exact he
    · exfalso
      have : r2.toNat * b.width + c2.toNat < r1.toNat * b.width := by
        have : (r2.toNat + 1) * b.width ≤ r1.toNat * b.width :=
          Nat.mul_le_mul_right _ (by omega)
        rw [Nat.succ_mul] at this
        omega
      omega
  constructor
  · omega
  · have : c1.toNat = c2.toNat := by
      rw [hrow] at h
      omega
    omega

theorem Board.get_set_self {b : Board} {row col : Int} {v : Int}
    (hval : b.isValid row col = true)
    (hlen : b.cells.length = b.width * b.height) :
    (b.set row col v).get row col = v := by
  have hidx : b.toIndex row col < b.cells.length := by
    rw [hlen]; exact Board.toIndex_lt hval
  simp [Board.set, Board.get, Board.toIndex, List.getD_eq_getElem?_getD,
    List.getElem?_set_self, hidx]
  rw [List.getElem?_eq_getElem (by simpa using hidx)]
  simp [List.getElem_set_self]

theorem Board.toIndex_mk {b : Board} {cells : List Int} {row col : Int} :
    (Board.mk b.width b.height cells).toIndex row col = b.toIndex row col :=
  rfl

theorem Board.get_set_ne {b : Board} {row col row' col' : Int} {v : Int}
    (h : b.toIndex row col ≠ b.toIndex row' col') :
    (b.set row col v).get row' col' = b.get row' col' := by
  simp only [Board.set, Board.get, Board.toIndex, List.getD_eq_getElem?_getD]
  rw [List.getElem?_set_ne (by simpa [Board.toIndex] using h)]

theorem Board.set_set_self {b : Board} {row col : Int} {v w : Int} :
    (b.set row col v).set row col w = b.set row col w := by
  simp only [Board.set, Board.toIndex, List.set_set]

theorem Board.set_self_of_get_eq {b : Board} {row col : Int} {v : Int}
    (h : b.get row col = v) : b.set row col v = b := by
  unfold Board.set
  unfold Board.get at h
  have : b.cells.set (b.toIndex row col) v = b.cells := by
    by_cases hlt : b.toIndex row col < b.cells.length
    · apply List.ext_getElem
      · simp
      · intro i h1 h2
        by_cases hi : i = b.toIndex row col
        · subst hi
          rw [List.getElem_set_self]
          rw [List.getD_eq_getElem?_getD, List.getElem?_eq_getElem hlt] at h
          simpa using h.symm
        · rw [List.getElem_set_ne (by omega)]
    · rw [List.set_eq_of_length_le (by omega)]
  rw [this]

theorem getD_replicate_zero (n i : Nat) :
    (List.replicate n (0 : Int)).getD i 0 = 0 := by
  rw [List.getD_eq_getElem?_getD]
  rcases Nat.lt_or_ge i n with h | h
  · rw [List.getElem?_replicate]
    simp [h]
  · rw [List.getElem?_eq_none (by simpa using h)]
    rfl

theorem Board.get_create (w h : Nat) (row col : Int) :
    (Board.create w h).get row col = 0 := by
  unfold Board.create Board.get
  exact getD_replicate_zero _ _

theorem Board.get_clear (b : Board) (row col : Int) :
    b.clear.get row col = 0 := by
  unfold Board.clear Board.get
  exact getD_replicate_zero _ _

theorem Board.clear_eq_create (b : Board) :
    b.clear = Board.create b.width b.height := rfl

/-! ### Move generator lemmas -/

/-- Any member of `getValidMoves row col u` is in bounds, one knight step
from the source, and (when `u` is set) unvisited. -/
theorem Board.mem_getValidMoves {b : Board} {row col : Int} {u : Bool}
    {m : Move} (h : m ∈ b.getValidMoves row col u) :
    b.isValid m.row m.col = true ∧ knightStep ⟨row, col⟩ m = true ∧
      (u = true → b.get m.row m.col = 0) := by
  unfold Board.getValidMoves at h
  rw [List.mem_filterMap] at h
  obtain ⟨off, hoff, heq⟩ := h
  by_cases hcond : (b.isValid (row + off.row) (col + off.col) &&
      (!u || !b.isVisited (row + off.row) (col + off.col))) = true
  · simp only [hcond, if_true] at heq
    rw [Option.some_inj] at heq
    subst heq
    rw [Bool.and_eq_true] at hcond
    obtain ⟨hv, hrest⟩ := hcond
    refine ⟨hv, ?_, ?_⟩
    · fin_cases hoff <;> simp [knightStep, add_sub_cancel_left]
    · intro hu
      subst hu
      simp only [Bool.not_true, Bool.false_or, Bool.not_eq_true'] at hrest
      simpa [Board.isVisited] using hrest
  · simp only [hcond, if_false] at heq
    exact absurd heq (by simp)

/-! ### Sorting and dead-end check lemmas -/

theorem Solver.sortMoves_perm (s : Solver) (moves : List Move) :
    (s.sortMoves moves).Perm moves :=
  List.perm_insertionSort _ _

theorem Solver.mem_sortMoves {s : Solver} {moves : List Move} {m : Move} :
    m ∈ s.sortMoves moves ↔ m ∈ moves :=
  (s.sortMoves_perm moves).mem_iff

/-- `createsDeadEnd` restores the board when the probed cell was unvisited
(which the search guarantees: candidates come from the unvisited filter). -/
theorem Solver.createsDeadEnd_board {s : Solver} {move : Move} {k : Int}
    (h : s.board.get move.row move.col = 0) :
    (s.createsDeadEnd move k).2 = s.board := by
  unfold Solver.createsDeadEnd
  simp only []
  rw [Board.set_set_self]
  exact Board.set_self_of_get_eq h

/-! ### Search state restoration on failure -/

/-- On failure, the candidate loop leaves board and path exactly as found
(given that the recursive call does, and that all candidates are unvisited
squares). -/
theorem Solver.tryMoves_restore
    (recur : Solver → Int → Int → Int → Bool × Solver)
    (hrec : ∀ s' r c k, (recur s' r c k).1 = false →
      (recur s' r c k).2.board = s'.board ∧ (recur s' r c k).2.path = s'.path) :
    ∀ (moves : List Move) (s : Solver) (numMoves : Nat) (k : Int),
      (∀ m ∈ moves, s.board.get m.row m.col = 0) →
      (Solver.tryMoves recur s moves numMoves k).1 = false →
      (Solver.tryMoves recur s moves numMoves k).2.board = s.board ∧
        (Solver.tryMoves recur s moves numMoves k).2.path = s.path := by
  intro moves
  induction moves with
  | nil =>
    intro s numMoves k _ _
    exact ⟨rfl, rfl⟩
  | cons move rest ih =>
    intro s numMoves k hunvis hfail
    have hmove : s.board.get move.row move.col = 0 :=
      hunvis move (List.mem_cons_self _ _)
    have hrest : ∀ m ∈ rest, s.board.get m.row m.col = 0 :=
      fun m hm => hunvis m (List.mem_cons_of_mem _ hm)
    rw [Solver.tryMoves] at hfail ⊢
    by_cases hskip :
        (decide (numMoves > 1) && (s.createsDeadEnd move k).1) = true
    · rw [if_pos hskip] at hfail ⊢
      rw [Solver.createsDeadEnd_board hmove] at hfail ⊢
      exact ih s numMoves k hrest hfail
    · rw [if_neg hskip] at hfail ⊢
      simp only [] at hfail ⊢
      split at hfail
      next hres =>
        simp at hfail
      next hres =>
        rw [if_neg hres]
        rw [Bool.not_eq_true] at hres
        obtain ⟨hb, hp⟩ := hrec _ _ _ _ hres
        rw [hb, hp] at hfail ⊢
        have hb3 : ((s.board.set move.row move.col k).set move.row move.col 0)
            = s.board := by
          rw [Board.set_set_self]
          exact Board.set_self_of_get_eq hmove
        have hp3 : (s.path ++ [move]).dropLast = s.path := by simp
        rw [hb3, hp3] at hfail ⊢
        exact ih _ numMoves k hrest hfail

/-- On failure, `backtrack` leaves board and path exactly as found. -/
theorem Solver.backtrackF_restore :
    ∀ (fuel : Nat) (s : Solver) (row col k : Int),
      (s.backtrackF fuel row col k).1 = false →
      (s.backtrackF fuel row col k).2.board = s.board ∧
        (s.backtrackF fuel row col k).2.path = s.path := by
  intro fuel
  induction fuel with
  | zero =>
    intro s row col k _
    exact ⟨rfl, rfl⟩
  | succ n ih =>
    intro s row col k hfail
    rw [Solver.backtrackF] at hfail ⊢
    by_cases hsol : s.isSolution k = true
    · rw [if_pos hsol] at hfail
      simp at hfail
    · rw [if_neg hsol] at hfail ⊢
      simp only [] at hfail ⊢
      refine Solver.tryMoves_restore _ (fun s' r c k' => ih s' r c k') _ _ _ _
        ?_ hfail
      intro m hm
      have := Board.mem_getValidMoves (Solver.mem_sortMoves.mp hm)
      exact this.2.2 rfl

/-! ### Counting undo events

`undoTryWith` / `undosF` replay the search and count one event per undo
(board unset + path pop + counter increment) — pruned candidates contribute
nothing.  They let us state that the backtrack counter counts exactly the
undo events. -/

def Solver.undoTryWith (recurB : Solver → Int → Int → Int → Bool × Solver)
    (recurN : Solver → Int → Int → Int → Nat)
    (s : Solver) (moves : List Move) (numMoves : Nat) (moveNumber : Int) :
    Nat :=
  match moves with
  | [] => 0
  | move :: rest =>
    if decide (numMoves > 1) && (s.createsDeadEnd move moveNumber).1 then
      Solver.undoTryWith recurB recurN
        { s with board := (s.createsDeadEnd move moveNumber).2 }
        rest numMoves moveNumber
    else
      let s1 : Solver := { s with
        board := s.board.set move.row move.col moveNumber,
        path := s.path ++ [move] }
      let result := recurB s1 move.row move.col (moveNumber + 1)
      if result.1 then recurN s1 move.row move.col (moveNumber + 1)
      else
        let s2 := result.2
        let s3 : Solver := { s2 with
          board := s2.board.set move.row move.col 0,
          path := s2.path.dropLast,
          backtrackCount := s2.backtrackCount + 1 }
        recurN s1 move.row move.col (moveNumber + 1) + 1 +
          Solver.undoTryWith recurB recurN s3 rest numMoves moveNumber

/-- The number of undo events performed by `backtrackF` on this call. -/
def Solver.undosF (s : Solver) (fuel : Nat) (row col : Int)
    (moveNumber : Int) : Nat :=
  match fuel with
  | 0 => 0
  | fuel + 1 =>
    if s.isSolution moveNumber then 0
    else
      let validMoves := s.board.getValidMoves row col true
      let sorted := s.sortMoves validMoves
      Solver.undoTryWith (fun s' r c k => Solver.backtrackF s' fuel r c k)
        (fun s' r c k => Solver.undosF s' fuel r c k)
        s sorted sorted.length moveNumber

theorem Solver.tryMoves_count
    (recurB : Solver → Int → Int → Int → Bool × Solver)
    (recurN : Solver → Int → Int → Int → Nat)
    (hrec : ∀ s' r c k, (recurB s' r c k).2.backtrackCount =
      s'.backtrackCount + recurN s' r c k) :
    ∀ (moves : List Move) (s : Solver) (numMoves : Nat) (k : Int),
      (Solver.tryMoves recurB s moves numMoves k).2.backtrackCount =
        s.backtrackCount +
          Solver.undoTryWith recurB recurN s moves numMoves k := by
  intro moves
  induction moves with
  | nil =>
    intro s numMoves k
    simp [Solver.tryMoves, Solver.undoTryWith]
  | cons move rest ih =>
    intro s numMoves k
    rw [Solver.tryMoves, Solver.undoTryWith]
    by_cases hskip :
        (decide (numMoves > 1) && (s.createsDeadEnd move k).1) = true
    · rw [if_pos hskip, if_pos hskip]
      exact ih _ numMoves k
    · rw [if_neg hskip, if_neg hskip]
      simp only []
      split
      next hres =>
        exact hrec _ _ _ _
      next hres =>
        rw [ih _ numMoves k]
        have h2 := hrec
          (Solver.mk (s.board.set move.row move.col k) (s.path ++ [move])
            s.backtrackCount s.startRow s.startCol s.tourType)
          move.row move.col (k + 1)
        simp only [] at h2 ⊢
        omega

theorem Solver.backtrackF_count :
    ∀ (fuel : Nat) (s : Solver) (row col k : Int),
      (s.backtrackF fuel row col k).2.backtrackCount =
        s.backtrackCount + s.undosF fuel row col k := by
  intro fuel
  induction fuel with
  | zero =>
    intro s row col k
    simp [Solver.backtrackF, Solver.undosF]
  | succ n ih =>
    intro s row col k
    rw [Solver.backtrackF, Solver.undosF]
    by_cases hsol : s.isSolution k = true
    · rw [if_pos hsol, if_pos hsol]
      rfl
    · rw [if_neg hsol, if_neg hsol]
      simp only []
      exact Solver.tryMoves_count _ _ (fun s' r c k' => ih s' r c k') _ _ _ _

/-! ### The success invariant: a true return carries a genuine tour prefix -/

/-- The knight adjacency relation as a Prop. -/
def knight (p q : Move) : Prop := knightStep p q = true

instance : DecidableRel knight := fun p q =>
  inferInstanceAs (Decidable (knightStep p q = true))

/-- The search invariant at a call `backtrack(row, col, moveNumber)`:
the board is well-sized, the path is a duplicate-free in-bounds knight
chain ending at (row, col), board occupancy mirrors path membership, and
`moveNumber` is one past the path length. -/
def Inv (s : Solver) (row col moveNumber : Int) : Prop :=
  s.board.cells.length = s.board.width * s.board.height ∧
  s.path.getLast? = some ⟨row, col⟩ ∧
  List.Chain' knight s.path ∧
  s.path.Nodup ∧
  (∀ m ∈ s.path, s.board.isValid m.row m.col = true) ∧
  (∀ i j : Int, s.board.isValid i j = true →
    (s.board.get i j ≠ 0 ↔ Move.mk i j ∈ s.path)) ∧
  moveNumber = (s.path.length : Int) + 1

/-- What a successful search returns, relative to the state it started
from: a full-coverage duplicate-free in-bounds knight chain whose first
position is the original path head. -/
def SuccessOut (s t : Solver) : Prop :=
  t.path.length = s.board.size ∧
  List.Chain' knight t.path ∧
  t.path.Nodup ∧
  (∀ m ∈ t.path, s.board.isValid m.row m.col = true) ∧
  t.path.head? = s.path.head?

theorem Inv.extend {s : Solver} {row col k : Int} {move : Move}
    (hInv : Inv s row col k)
    (hm : move ∈ s.board.getValidMoves row col true) :
    Inv (Solver.mk (s.board.set move.row move.col k) (s.path ++ [move])
      s.backtrackCount s.startRow s.startCol s.tourType)
      move.row move.col (k + 1) := by
  obtain ⟨hlen, hlast, hchain, hnodup, hvalid, hiff, hk⟩ := hInv
  obtain ⟨hmv, hmk, hmu⟩ := Board.mem_getValidMoves hm
  have hmu : s.board.get move.row move.col = 0 := hmu rfl
  have hmnotmem : move ∉ s.path := by
    intro hmem
    have := (hiff move.row move.col hmv).mpr hmem
    exact this hmu
  have hkpos : k ≠ 0 := by
    rw [hk]
    have : (0 : Int) ≤ (s.path.length : Int) := Int.natCast_nonneg _
    omega
  have hpne : s.path ≠ [] := by
    intro h
    rw [h] at hlast
    simp at hlast
  refine ⟨?_, ?_, ?_, ?_, ?_, ?_, ?_⟩
  · simpa [Board.set] using hlen
  · simp [List.getLast?_concat]
  · refine List.Chain'.append hchain (List.chain'_singleton _) ?_
    intro x hx y hy
    rw [hlast] at hx
    simp at hx hy
    subst hx
    subst hy
    exact hmk
  · rw [List.nodup_append]
    exact ⟨hnodup, List.nodup_singleton _, by simpa using hmnotmem⟩
  · intro m hmem
    rw [List.mem_append] at hmem
    rcases hmem with hmem | hmem
    · exact hvalid m hmem
    · simp at hmem
      subst hmem
      exact hmv
  · intro i j hv
    have hv' : s.board.isValid i j = true := hv
    by_cases heq : Move.mk i j = move
    · have hi : i = move.row := by rw [← heq]
      have hj : j = move.col := by rw [← heq]
      subst hi
      subst hj
      constructor
      · intro _
        simp [heq]
      · intro _
        show (s.board.set move.row move.col k).get move.row move.col ≠ 0
        rw [Board.get_set_self hmv hlen]
        exact hkpos
    · have hidx : s.board.toIndex move.row move.col ≠ s.board.toIndex i j := by
        intro hcontra
        obtain ⟨h1, h2⟩ := Board.toIndex_inj hmv hv' hcontra
        exact heq (by rw [← h1, ← h2])
      show ((s.board.set move.row move.col k).get i j ≠ 0 ↔ _)
      rw [Board.get_set_ne hidx]
      rw [hiff i j hv']
      constructor
      · intro h
        exact List.mem_append_left _ h
      · intro h
        rcases List.mem_append.mp h with h | h
        · exact h
        · simp at h
          exact absurd h heq
  · rw [hk]
    simp

theorem Solver.tryMoves_success
    (recur : Solver → Int → Int → Int → Bool × Solver)
    (hrecSucc : ∀ s' r c k, Inv s' r c k → (recur s' r c k).1 = true →
      SuccessOut s' (recur s' r c k).2)
    (hrecRestore : ∀ s' r c k, (recur s' r c k).1 = false →
      (recur s' r c k).2.board = s'.board ∧
        (recur s' r c k).2.path = s'.path) :
    ∀ (moves : List Move) (s : Solver) (numMoves : Nat) (row col k : Int),
      Inv s row col k →
      (∀ m ∈ moves, m ∈ s.board.getValidMoves row col true) →
      (Solver.tryMoves recur s moves numMoves k).1 = true →
      SuccessOut s (Solver.tryMoves recur s moves numMoves k).2 := by
  intro moves
  induction moves with
  | nil =>
    intro s numMoves row col k _ _ hsucc
    simp [Solver.tryMoves] at hsucc
  | cons move rest ih =>
    intro s numMoves row col k hInv hmem hsucc
    have hmove : move ∈ s.board.getValidMoves row col true :=
      hmem move (List.mem_cons_self _ _)
    have hrest : ∀ m ∈ rest, m ∈ s.board.getValidMoves row col true :=
      fun m hm => hmem m (List.mem_cons_of_mem _ hm)
    have hmu : s.board.get move.row move.col = 0 :=
      (Board.mem_getValidMoves hmove).2.2 rfl
    rw [Solver.tryMoves] at hsucc ⊢
    by_cases hskip :
        (decide (numMoves > 1) && (s.createsDeadEnd move k).1) = true
    · rw [if_pos hskip] at hsucc ⊢
      rw [Solver.createsDeadEnd_board hmu] at hsucc ⊢
      exact ih s numMoves row col k hInv hrest hsucc
    · rw [if_neg hskip] at hsucc ⊢
      simp only [] at hsucc ⊢
      split at hsucc
      next hres =>
        rw [if_pos hres]
        have hInv1 := Inv.extend hInv hmove
        have hout := hrecSucc _ _ _ _ hInv1 hres
        obtain ⟨hlen, hchain, hnodup, hvalid, hhead⟩ := hout
        refine ⟨hlen, hchain, hnodup, hvalid, ?_⟩
        rw [hhead]
        show (s.path ++ [move]).head? = s.path.head?
        have hpne : s.path ≠ [] := by
          obtain ⟨_, hlast, _⟩ := hInv
          intro h
          rw [h] at hlast
          simp at hlast
        cases hpc : s.path with
        | nil => exact absurd hpc hpne
        | cons a l => simp
      next hres =>
        rw [if_neg hres]
        rw [Bool.not_eq_true] at hres
        obtain ⟨hb, hp⟩ := hrecRestore _ _ _ _ hres
        rw [hb, hp] at hsucc ⊢
        have hb3 : ((s.board.set move.row move.col k).set move.row move.col 0)
            = s.board := by
          rw [Board.set_set_self]
          exact Board.set_self_of_get_eq hmu
        have hp3 : (s.path ++ [move]).dropLast = s.path := by simp
        rw [hb3, hp3] at hsucc ⊢
        exact ih _ numMoves row col k (by exact hInv) (by exact hrest) hsucc

theorem Solver.backtrackF_success :
    ∀ (fuel : Nat) (s : Solver) (row col k : Int),
      Inv s row col k →
      (s.backtrackF fuel row col k).1 = true →
      SuccessOut s (s.backtrackF fuel row col k).2 := by
  intro fuel
  induction fuel with
  | zero =>
    intro s row col k _ hsucc
    simp [Solver.backtrackF] at hsucc
  | succ n ih =>
    intro s row col k hInv hsucc
    rw [Solver.backtrackF] at hsucc ⊢
    by_cases hsol : s.isSolution k = true
    · rw [if_pos hsol] at hsucc ⊢
      obtain ⟨hlen, hlast, hchain, hnodup, hvalid, hiff, hk⟩ := hInv
      have hksize : k = (s.board.size : Int) + 1 := by
        unfold Solver.isSolution at hsol
        by_cases hkk : (k != (s.board.size : Int) + 1) = true
        · rw [if_pos hkk] at hsol
          exact absurd hsol (by simp)
        · simpa using hkk
      have hlens : s.path.length = s.board.size := by
        rw [hksize] at hk
        omega
      exact ⟨hlens, hchain, hnodup, hvalid, rfl⟩
    · rw [if_neg hsol] at hsucc ⊢
      simp only [] at hsucc ⊢
      refine Solver.tryMoves_success _ (fun s' r c k' => ih s' r c k')
        (fun s' r c k' => Solver.backtrackF_restore n s' r c k')
        _ _ _ _ _ _ hInv ?_ hsucc
      intro m hm
      exact Solver.mem_sortMoves.mp hm

/-! ### Solve-level lemmas -/

theorem Inv.initial (s : Solver) (startRow startCol : Int) (type : TourType)
    (hvalid : s.board.isValid startRow startCol = true) :
    Inv (Solver.mk (s.board.clear.set startRow startCol 1)
      [⟨startRow, startCol⟩] 0 startRow startCol type) startRow startCol 2 := by
  have hcb : s.board.clear.isValid startRow startCol = true := hvalid
  have hcl : s.board.clear.cells.length =
      s.board.clear.width * s.board.clear.height := by
    simp [Board.clear]
  refine ⟨?_, ?_, ?_, ?_, ?_, ?_, ?_⟩
  · simp [Board.set, Board.clear]
  · simp
  · exact List.chain'_singleton _
  · simp
  · intro m hm
    simp at hm
    subst hm
    exact hvalid
  · intro i j hv
    have hv' : s.board.isValid i j = true := hv
    by_cases heq : i = startRow ∧ j = startCol
    · obtain ⟨hi, hj⟩ := heq
      subst hi
      subst hj
      constructor
      · intro _
        simp
      · intro _
        show (s.board.clear.set i j 1).get i j ≠ 0
        rw [Board.get_set_self hcb hcl]
        decide
    · have hvc : s.board.clear.isValid i j = true := hv'
      have hidx : s.board.clear.toIndex startRow startCol ≠
          s.board.clear.toIndex i j := by
        intro hcontra
        obtain ⟨h1, h2⟩ := Board.toIndex_inj hcb hvc hcontra
        exact heq ⟨h1.symm, h2.symm⟩
      show ((s.board.clear.set startRow startCol 1).get i j ≠ 0 ↔ _)
      rw [Board.get_set_ne hidx, Board.get_clear]
      constructor
      · intro h
        exact absurd rfl h
      · intro h
        simp at h
        exact absurd h heq
  · simp

theorem Solver.solve_success (s : Solver) (startRow startCol : Int)
    (type : TourType)
    (hsolved : (s.solve startRow startCol type).1 = true) :
    (s.solve startRow startCol type).2.path.length = s.board.size ∧
    List.Chain' knight (s.solve startRow startCol type).2.path ∧
    (s.solve startRow startCol type).2.path.Nodup ∧
    (∀ m ∈ (s.solve startRow startCol type).2.path,
      s.board.isValid m.row m.col = true) ∧
    (s.solve startRow startCol type).2.path.head? =
      some ⟨startRow, startCol⟩ := by
  unfold Solver.solve at hsolved ⊢
  by_cases hvalid : s.board.isValid startRow startCol = true
  · rw [hvalid] at hsolved ⊢
    simp only [Bool.not_true, Bool.false_eq_true, if_false] at hsolved ⊢
    obtain ⟨h1, h2, h3, h4, h5⟩ :=
      Solver.backtrackF_success _ _ _ _ _
        (Inv.initial s startRow startCol type hvalid) hsolved
    exact ⟨h1, h2, h3, h4, h5⟩
  · rw [Bool.not_eq_true] at hvalid
    rw [hvalid] at hsolved
    simp at hsolved

theorem Solver.solve_failure (s : Solver) (startRow startCol : Int)
    (type : TourType)
    (hvalid : s.board.isValid startRow startCol = true)
    (hfail : (s.solve startRow startCol type).1 = false) :
    (s.solve startRow startCol type).2.path = [⟨startRow, startCol⟩] ∧
    (s.solve startRow startCol type).2.board =
      s.board.clear.set startRow startCol 1 ∧
    (s.solve startRow startCol type).2.backtrackCount =
      Solver.undosF (Solver.mk (s.board.clear.set startRow startCol 1)
        [⟨startRow, startCol⟩] 0 startRow startCol type)
        (s.board.size + 1) startRow startCol 2 := by
  unfold Solver.solve at hfail ⊢
  rw [hvalid] at hfail ⊢
  simp only [Bool.not_true, Bool.false_eq_true, if_false] at hfail ⊢
  obtain ⟨hb, hp⟩ := Solver.backtrackF_restore _ _ _ _ _ hfail
  refine ⟨hp, hb, ?_⟩
  rw [Solver.backtrackF_count]
  show 0 + _ = _
  rw [Nat.zero_add]
  rfl

/-! ### Dimension preservation and determinism of `solve` -/

theorem Solver.tryMoves_dims
    (recur : Solver → Int → Int → Int → Bool × Solver)
    (hrec : ∀ s' r c k, (recur s' r c k).2.board.width = s'.board.width ∧
      (recur s' r c k).2.board.height = s'.board.height) :
    ∀ (moves : List Move) (s : Solver) (numMoves : Nat) (k : Int),
      (Solver.tryMoves recur s moves numMoves k).2.board.width =
          s.board.width ∧
        (Solver.tryMoves recur s moves numMoves k).2.board.height =
          s.board.height := by
  intro moves
  induction moves with
  | nil =>
    intro s numMoves k
    exact ⟨rfl, rfl⟩
  | cons move rest ih =>
    intro s numMoves k
    rw [Solver.tryMoves]
    by_cases hskip :
        (decide (numMoves > 1) && (s.createsDeadEnd move k).1) = true
    · rw [if_pos hskip]
      exact ih _ numMoves k
    · rw [if_neg hskip]
      simp only []
      split
      next hres =>
        exact hrec _ _ _ _
      next hres =>
        refine ⟨?_, ?_⟩
        · rw [(ih _ numMoves k).1]
          exact (hrec _ _ _ _).1
        · rw [(ih _ numMoves k).2]
          exact (hrec _ _ _ _).2

theorem Solver.backtrackF_dims :
    ∀ (fuel : Nat) (s : Solver) (row col k : Int),
      (s.backtrackF fuel row col k).2.board.width = s.board.width ∧
        (s.backtrackF fuel row col k).2.board.height = s.board.height := by
  intro fuel
  induction fuel with
  | zero =>
    intro s row col k
    exact ⟨rfl, rfl⟩
  | succ n ih =>
    intro s row col k
    rw [Solver.backtrackF]
    by_cases hsol : s.isSolution k = true
    · rw [if_pos hsol]
      exact ⟨rfl, rfl⟩
    · rw [if_neg hsol]
      simp only []
      exact Solver.tryMoves_dims _ (fun s' r c k' => ih s' r c k') _ _ _ _

theorem Solver.solve_dims (s : Solver) (startRow startCol : Int)
    (type : TourType) :
    (s.solve startRow startCol type).2.board.width = s.board.width ∧
      (s.solve startRow startCol type).2.board.height = s.board.height := by
  unfold Solver.solve
  by_cases hvalid : s.board.isValid startRow startCol = true
  · rw [hvalid]
    simp only [Bool.not_true, Bool.false_eq_true, if_false]
    exact Solver.backtrackF_dims _ _ _ _ _
  · rw [Bool.not_eq_true] at hvalid
    rw [hvalid]
    exact ⟨rfl, rfl⟩

/-- `solve` reads nothing of the prior state but the board dimensions: two
solvers with equal dimensions produce identical results for a valid start. -/
theorem Solver.solve_eq_of_dims (s t : Solver) (startRow startCol : Int)
    (type : TourType)
    (hw : s.board.width = t.board.width)
    (hh : s.board.height = t.board.height)
    (hvalid : s.board.isValid startRow startCol = true) :
    s.solve startRow startCol type = t.solve startRow startCol type := by
  have hvt : t.board.isValid startRow startCol = true := by
    rw [← hvalid]
    unfold Board.isValid
    rw [hw, hh]
  have hclear : s.board.clear = t.board.clear := by
    unfold Board.clear
    rw [hw, hh]
  unfold Solver.solve
  rw [hvalid, hvt, hclear]
  simp only [Bool.not_true, Bool.false_eq_true, if_false]

/-! ### Parity: a knight path alternates square colors -/

/-- A knight step flips the parity of row + col. -/
theorem knight_flips_parity {p q : Move} (h : knight p q) :
    ((p.row + p.col) % 2 = 1) ↔ ¬((q.row + q.col) % 2 = 1) := by
  unfold knight knightStep at h
  simp only [Bool.or_eq_true, Bool.and_eq_true, beq_iff_eq] at h
  rcases h with ⟨h1, h2⟩ | ⟨h1, h2⟩ <;>
  · rw [Int.natAbs_eq_iff] at h1 h2
    omega

/-- 1 when the square is odd-colored, else 0. -/
def oddBit (m : Move) : Nat := if (m.row + m.col) % 2 = 1 then 1 else 0

/-- Along a knight chain colors alternate, so the number of odd-colored
squares is the length plus the head's color bit, halved. -/
theorem chain_countOdd :
    ∀ (p : List Move), List.Chain' knight p →
      (p.filter fun m => decide ((m.row + m.col) % 2 = 1)).length =
        (p.length + p.head?.elim 0 oddBit) / 2
  | [], _ => by simp
  | [a], _ => by
    by_cases h : (a.row + a.col) % 2 = 1 <;> simp [oddBit, h]
  | a :: b :: t, hchain => by
    rw [List.chain'_cons] at hchain
    obtain ⟨hab, hchain2⟩ := hchain
    have ih := chain_countOdd (b :: t) hchain2
    have hflip := knight_flips_parity hab
    by_cases ha : (a.row + a.col) % 2 = 1
    · have hb : ¬((b.row + b.col) % 2 = 1) := hflip.mp ha
      simp [List.filter_cons, ha, hb, oddBit] at ih ⊢
      omega
    · have hb : (b.row + b.col) % 2 = 1 := by
        by_contra hnb
        exact ha (hflip.mpr hnb)
      simp [List.filter_cons, ha, hb, oddBit] at ih ⊢
      omega

/-- The twelve odd-colored squares of a 5x5 board. -/
def oddCells : List Move :=
  [⟨0, 1⟩, ⟨0, 3⟩, ⟨1, 0⟩, ⟨1, 2⟩, ⟨1, 4⟩, ⟨2, 1⟩, ⟨2, 3⟩,
    ⟨3, 0⟩, ⟨3, 2⟩, ⟨3, 4⟩, ⟨4, 1⟩, ⟨4, 3⟩]

theorem mem_oddCells {m : Move}
    (hv : (Board.create 5 5).isValid m.row m.col = true)
    (hodd : (m.row + m.col) % 2 = 1) : m ∈ oddCells := by
  obtain ⟨row, col⟩ := m
  rw [Board.isValid_iff] at hv
  simp only at hv hodd
  obtain ⟨h1, h2, h3, h4⟩ := hv
  have h2' : row < 5 := by exact_mod_cast h2
  have h4' : col < 5 := by exact_mod_cast h4
  interval_cases row <;> interval_cases col <;> revert hodd <;> decide

theorem nodup_subset_length {l l' : List Move} (hn : l.Nodup)
    (hs : ∀ x ∈ l, x ∈ l') : l.length ≤ l'.length := by
  have h1 : l.toFinset.card = l.length := List.toFinset_card_of_nodup hn
  have h2 : l.toFinset ⊆ l'.toFinset := by
    intro x hx
    rw [List.mem_toFinset] at hx ⊢
    exact hs x hx
  calc l.length = l.toFinset.card := h1.symm
    _ ≤ l'.toFinset.card := Finset.card_le_card h2
    _ ≤ l'.length := l'.toFinset_card_le

/-! ### Comparator characterization (Warnsdorff ordering) -/

theorem Solver.movePrec_iff {s : Solver} {a b : Move} :
    s.movePrec a b ↔
      (s.calculateDegree a < s.calculateDegree b ∨
        (s.calculateDegree a = s.calculateDegree b ∧
          s.distanceFromCenter b ≤ s.distanceFromCenter a)) := by
  unfold Solver.movePrec Solver.moveCmp
  simp only [bne_iff_ne, Bool.not_eq_true']
  by_cases h : s.calculateDegree b ≠ s.calculateDegree a
  · rw [if_pos h]
    simp only [decide_eq_false_iff_not, Nat.not_lt]
    omega
  · rw [if_neg h]
    simp only [decide_eq_false_iff_not, Nat.not_lt] at h ⊢
    omega

theorem Solver.movePrec_total (s : Solver) (a b : Move) :
    s.movePrec a b ∨ s.movePrec b a := by
  rw [Solver.movePrec_iff, Solver.movePrec_iff]
  omega

theorem Solver.movePrec_trans (s : Solver) (a b c : Move)
    (h1 : s.movePrec a b) (h2 : s.movePrec b c) : s.movePrec a c := by
  rw [Solver.movePrec_iff] at h1 h2 ⊢
  omega

/-! ### The degree count agrees with the filtered enumeration -/

theorem foldl_count_eq_filterMap_length (P : Move → Bool) (g : Move → Move) :
    ∀ (l : List Move) (n : Nat),
      l.foldl (fun count m => if P m then count + 1 else count) n =
        n + (l.filterMap fun m => if P m then some (g m) else none).length := by
  intro l
  induction l with
  | nil => intro n; simp
  | cons x xs ih =>
    intro n
    by_cases h : P x = true
    · simp only [List.foldl_cons, List.filterMap_cons, h, if_true]
      rw [ih (n + 1)]
      simp
      omega
    · rw [Bool.not_eq_true] at h
      simp only [List.foldl_cons, List.filterMap_cons, h, if_false]
      exact ih n

/-! ### validatePath: bitmap and step-check characterizations -/

theorem getD_set_self_bool {v : List Bool} {i : Nat} {x : Bool}
    (h : i < v.length) : (v.set i x).getD i false = x := by
  rw [List.getD_eq_getElem?_getD, List.getElem?_set_self h]
  rfl

theorem getD_set_ne_bool {v : List Bool} {i j : Nat} {x : Bool}
    (h : i ≠ j) : (v.set i x).getD j false = v.getD j false := by
  rw [List.getD_eq_getElem?_getD, List.getElem?_set_ne h,
    ← List.getD_eq_getElem?_getD]

theorem zip_tail_all_iff (f : Move → Move → Bool) :
    ∀ l : List Move,
      ((l.zip l.tail).all fun pq => f pq.1 pq.2) = true ↔
        List.Chain' (fun a b => f a b = true) l
  | [] => by simp
  | [a] => by simp
  | a :: b :: t => by
    have ih := zip_tail_all_iff f (b :: t)
    simp only [List.tail_cons, List.zip_cons_cons, List.all_cons,
      Bool.and_eq_true, List.chain'_cons] at ih ⊢
    exact and_congr Iff.rfl ih

theorem checkUnique_iff (b : Board) :
    ∀ (l : List Move) (v : List Bool), v.length = b.size →
      (checkUnique b l v = true ↔
        ((∀ m ∈ l, b.isValid m.row m.col = true) ∧ l.Nodup ∧
          ∀ m ∈ l, v.getD (b.toIndex m.row m.col) false = false)) := by
  intro l
  induction l with
  | nil =>
    intro v hv
    simp [checkUnique]
  | cons m rest ih =>
    intro v hv
    rw [checkUnique]
    by_cases hval : b.isValid m.row m.col = true
    · rw [if_neg (by rw [hval]; simp)]
      by_cases hbit : v.getD (b.toIndex m.row m.col) false = true
      · rw [if_pos hbit]
        constructor
        · intro h
          exact absurd h (by simp)
        · rintro ⟨_, _, hbits⟩
          have := hbits m (List.mem_cons_self _ _)
          rw [this] at hbit
          exact absurd hbit (by simp)
      · rw [if_neg hbit]
        rw [Bool.not_eq_true] at hbit
        have hidx : b.toIndex m.row m.col < v.length := by
          rw [hv]
          exact Board.toIndex_lt hval
        have ih2 := ih (v.set (b.toIndex m.row m.col) true) (by simp [hv])
        rw [ih2]
        constructor
        · rintro ⟨hva, hnd, hbits⟩
          have hne : ∀ m' ∈ rest,
              b.toIndex m'.row m'.col ≠ b.toIndex m.row m.col ∧
                v.getD (b.toIndex m'.row m'.col) false = false := by
            intro m' hm'
            have hthis := hbits m' hm'
            by_cases he : b.toIndex m'.row m'.col = b.toIndex m.row m.col
            · rw [he, getD_set_self_bool hidx] at hthis
              exact absurd hthis (by simp)
            · rw [getD_set_ne_bool (fun hc => he hc.symm)] at hthis
              exact ⟨he, hthis⟩
          refine ⟨?_, ?_, ?_⟩
          · intro x hx
            rcases List.mem_cons.mp hx with hx | hx
            · rw [hx]
              exact hval
            · exact hva x hx
          · rw [List.nodup_cons]
            refine ⟨?_, hnd⟩
            intro hmem
            exact (hne m hmem).1 rfl
          · intro x hx
            rcases List.mem_cons.mp hx with hx | hx
            · rw [hx]
              exact hbit
            · exact (hne x hx).2
        · rintro ⟨hva, hnd, hbits⟩
          rw [List.nodup_cons] at hnd
          refine ⟨fun x hx => hva x (List.mem_cons_of_mem _ hx), hnd.2, ?_⟩
          intro x hx
          have hxv : b.isValid x.row x.col = true :=
            hva x (List.mem_cons_of_mem _ hx)
          have hne : b.toIndex m.row m.col ≠ b.toIndex x.row x.col := by
            intro he
            obtain ⟨h1, h2⟩ := Board.toIndex_inj hval hxv he
            have hxm : x = m := by
              cases x
              cases m
              simp at h1 h2 ⊢
              exact ⟨h1.symm, h2.symm⟩
            rw [hxm] at hx
            exact hnd.1 hx
          rw [getD_set_ne_bool hne]
          exact hbits x (List.mem_cons_of_mem _ hx)
    · rw [Bool.not_eq_true] at hval
      rw [if_pos (by rw [hval]; simp)]
      constructor
      · intro h
        exact absurd h (by simp)
      · rintro ⟨hva, _, _⟩
        have := hva m (List.mem_cons_self _ _)
        rw [hval] at this
        exact absurd this (by simp)

/-- The path invariants exactly as the specification words them for
`validatePath` (C5 as stated): full coverage, in-bounds, no duplicates,
legal consecutive steps, and — whenever the tour type is CLOSED — the
wrap-around step is a knight move. -/
def SpecValidPath (s : Solver) : Prop :=
  s.path.length = s.board.size ∧
  (∀ m ∈ s.path, s.board.isValid m.row m.col = true) ∧
  s.path.Nodup ∧
  List.Chain' knight s.path ∧
  (s.tourType = TourType.CLOSED →
    knight (s.path.getLastD ⟨0, 0⟩) (s.path.headD ⟨0, 0⟩))

/-- The amended invariants: the wrap-around requirement applies only when
the path has more than one position (matching the `path_.size() > 1` guard
in the code). -/
def SpecValidPathAmended (s : Solver) : Prop :=
  s.path.length = s.board.size ∧
  (∀ m ∈ s.path, s.board.isValid m.row m.col = true) ∧
  s.path.Nodup ∧
  List.Chain' knight s.path ∧
  (s.tourType = TourType.CLOSED ∧ 1 < s.path.length →
    knight (s.path.getLastD ⟨0, 0⟩) (s.path.headD ⟨0, 0⟩))

theorem Solver.validatePath_iff (s : Solver)
    (hw : 0 < s.board.width) (hh : 0 < s.board.height) :
    s.validatePath = true ↔ SpecValidPathAmended s := by
  have hsize : 0 < s.board.size := Nat.mul_pos hw hh
  unfold Solver.validatePath SpecValidPathAmended
  by_cases hempty : s.path.isEmpty = true
  · rw [if_pos hempty]
    rw [List.isEmpty_iff] at hempty
    constructor
    · intro h
      exact absurd h (by simp)
    · rintro ⟨hlen, _⟩
      rw [hempty] at hlen
      simp at hlen
      omega
  · rw [if_neg hempty]
    by_cases hlen : (s.path.length != s.board.size) = true
    · rw [if_pos hlen]
      rw [bne_iff_ne] at hlen
      constructor
      · intro h
        exact absurd h (by simp)
      · rintro ⟨hl, _⟩
        exact absurd hl hlen
    · rw [if_neg hlen]
      rw [Bool.not_eq_true, bne_eq_false_iff_eq] at hlen
      have hcu := checkUnique_iff s.board s.path
        (List.replicate s.board.size false) (by simp)
      have hrep : ∀ m ∈ s.path,
          (List.replicate s.board.size (false : Bool)).getD
            (s.board.toIndex m.row m.col) false = false := by
        intro m _
        rcases Nat.lt_or_ge (s.board.toIndex m.row m.col) s.board.size
          with hlt | hge
        · rw [List.getD_eq_getElem?_getD, List.getElem?_replicate]
          simp [hlt]
        · rw [List.getD_eq_getElem?_getD,
            List.getElem?_eq_none (by simpa using hge)]
          rfl
      by_cases huniq : checkUnique s.board s.path
          (List.replicate s.board.size false) = true
      · rw [if_neg (by rw [huniq]; simp)]
        obtain ⟨hva, hnd, _⟩ := hcu.mp huniq
        by_cases hall : ((s.path.zip s.path.tail).all fun pq =>
            knightStep pq.1 pq.2) = true
        · rw [if_neg (by rw [hall]; simp)]
          have hchain : List.Chain' knight s.path :=
            (zip_tail_all_iff knightStep s.path).mp hall
          by_cases hclosed :
              (s.tourType = TourType.CLOSED && s.path.length > 1) = true
          · rw [if_pos hclosed]
            simp only [Bool.and_eq_true, decide_eq_true_eq] at hclosed
            constructor
            · intro h
              exact ⟨hlen, hva, hnd, hchain, fun _ => h⟩
            · rintro ⟨_, _, _, _, hwrap⟩
              exact hwrap hclosed
          · rw [if_neg hclosed]
            simp only [Bool.and_eq_true, decide_eq_true_eq, not_and]
              at hclosed
            constructor
            · intro _
              refine ⟨hlen, hva, hnd, hchain, ?_⟩
              rintro ⟨hc, hl⟩
              exact absurd hl (by intro h2; exact absurd h2 (hclosed hc))
            · intro _
              rfl
        · rw [if_pos (by rw [Bool.not_eq_true] at hall; rw [hall]; simp)]
          constructor
          · intro h
            exact absurd h (by simp)
          · rintro ⟨_, _, _, hchain, _⟩
            have := (zip_tail_all_iff knightStep s.path).mpr hchain
            exact absurd this hall
      · rw [if_pos (by rw [Bool.not_eq_true] at huniq; rw [huniq]; simp)]
        constructor
        · intro h
          exact absurd h (by simp)
        · rintro ⟨_, hva, hnd, _⟩
          exact absurd (hcu.mpr ⟨hva, hnd, hrep⟩) huniq

theorem getLastD_eq_getLast {l : List Move} (h : l ≠ []) (d : Move) :
    l.getLastD d = l.getLast h := by
  rw [List.getLastD_eq_getLast?, List.getLast?_eq_getLast _ h]
  rfl

/-! ### Claim theorems -/

/-- C2: the recursive step's terminal check succeeds exactly when the move
number is `W*H + 1` and, for an OPEN tour, unconditionally; for a CLOSED
tour, only if the start appears among the unfiltered knight moves from the
path's last position. -/
theorem C2_isSolution_iff (s : Solver) (k : Int) (hne : s.path ≠ []) :
    s.isSolution k = true ↔
      (k = (s.board.size : Int) + 1 ∧
        (s.tourType = TourType.OPEN ∨
          (s.tourType = TourType.CLOSED ∧
            Move.mk s.startRow s.startCol ∈
              s.board.getValidMoves (s.path.getLast hne).row
                (s.path.getLast hne).col false))) := by
  unfold Solver.isSolution
  by_cases hk : k = (s.board.size : Int) + 1
  · rw [if_neg (by simp [hk])]
    by_cases ht : s.tourType = TourType.OPEN
    · rw [if_pos ht]
      simp [hk, ht]
    · rw [if_neg ht]
      have htc : s.tourType = TourType.CLOSED := by
        cases h : s.tourType
        · exact absurd h ht
        · rfl
      simp only []
      rw [getLastD_eq_getLast hne ⟨0, 0⟩, List.any_eq_true]
      constructor
      · rintro ⟨m, hm, hbeq⟩
        simp only [Bool.and_eq_true, beq_iff_eq] at hbeq
        refine ⟨hk, Or.inr ⟨htc, ?_⟩⟩
        have hmm : m = Move.mk s.startRow s.startCol := by
          cases m
          simp at hbeq ⊢
          exact ⟨hbeq.1, hbeq.2⟩
        rw [← hmm]
        exact hm
      · rintro ⟨_, hor⟩
        rcases hor with hopen | ⟨_, hmem⟩
        · exact absurd hopen ht
        · exact ⟨_, hmem, by simp⟩
  · rw [if_pos (by simp [hk])]
    constructor
    · intro h
      exact absurd h (by simp)
    · rintro ⟨h, _⟩
      exact absurd h hk

/-- C3: a candidate that is not the sole one and whose tentative placement
strands one of its unvisited neighbors is skipped entirely — the loop
continues on the remaining candidates with identical state (no recursion,
no backtrack increment), and the dead-end probe leaves the board intact. -/
theorem C3_prune_skips (recur : Solver → Int → Int → Int → Bool × Solver)
    (s : Solver) (move : Move) (rest : List Move) (numMoves : Nat) (k : Int)
    (hmulti : 1 < numMoves)
    (hunvis : s.board.get move.row move.col = 0)
    (hdead : ∃ n ∈ (s.board.set move.row move.col k).getValidMoves
        move.row move.col true,
      ((s.board.set move.row move.col k).getValidMoves n.row n.col
        true).length = 0) :
    Solver.tryMoves recur s (move :: rest) numMoves k =
      Solver.tryMoves recur s rest numMoves k ∧
    (s.createsDeadEnd move k).2 = s.board := by
  have hflag : (s.createsDeadEnd move k).1 = true := by
    unfold Solver.createsDeadEnd
    simp only [List.any_eq_true, beq_iff_eq]
    exact hdead
  refine ⟨?_, Solver.createsDeadEnd_board hunvis⟩
  rw [Solver.tryMoves]
  rw [if_pos (by simp [hmulti, hflag])]
  rw [Solver.createsDeadEnd_board hunvis]

/-- C4: the candidate ordering is a permutation of the input sorted
ascending by degree (computed on the current board), ties broken by larger
distance from the center (H/2, W/2) first. -/
theorem C4_sortMoves_sorted (s : Solver) (moves : List Move) :
    (s.sortMoves moves).Perm moves ∧
    (s.sortMoves moves).Pairwise (fun a b =>
      s.calculateDegree a < s.calculateDegree b ∨
        (s.calculateDegree a = s.calculateDegree b ∧
          s.distanceFromCenter b ≤ s.distanceFromCenter a)) := by
  refine ⟨s.sortMoves_perm moves, ?_⟩
  have hs : List.Sorted s.movePrec (s.sortMoves moves) := by
    haveI ht : IsTotal Move s.movePrec := ⟨s.movePrec_total⟩
    haveI htr : IsTrans Move s.movePrec := ⟨s.movePrec_trans⟩
    exact List.sorted_insertionSort s.movePrec moves
  exact List.Pairwise.imp (fun h => Solver.movePrec_iff.mp h) hs

/-- C6: an out-of-bounds start makes `solve` return false with the whole
solver state (board, path, backtrack count) untouched. -/
theorem C6_invalid_start (s : Solver) (startRow startCol : Int)
    (type : TourType) (h : s.board.isValid startRow startCol = false) :
    s.solve startRow startCol type = (false, s) := by
  unfold Solver.solve
  rw [h]
  rfl

/-- C7: the allocation-free degree count agrees with the length of the
unvisited-filtered move enumeration, on every board and position. -/
theorem C7_count_eq_length (b : Board) (row col : Int) :
    b.countValidMoves row col = (b.getValidMoves row col true).length := by
  have h := foldl_count_eq_filterMap_length
    (fun m => b.isValid (row + m.row) (col + m.col) &&
      !b.isVisited (row + m.row) (col + m.col))
    (fun m => ⟨row + m.row, col + m.col⟩) KNIGHT_MOVES 0
  rw [Nat.zero_add] at h
  exact h

/-- C10: statistics on an empty path are all zero, average included; the
average's division is guarded by the emptiness check. -/
theorem C10_stats_empty (s : Solver) (h : s.path = []) :
    s.getPathStatistics = ⟨0, 0, 0, 0, 0⟩ := by
  unfold Solver.getPathStatistics
  rw [if_pos h, h]
  rfl

theorem Board.isValid_congr {b b' : Board} (hw : b.width = b'.width)
    (hh : b.height = b'.height) (row col : Int) :
    b.isValid row col = b'.isValid row col := by
  unfold Board.isValid
  rw [hw, hh]

/-- C5 counterexample: `solve(0, 0, CLOSED)` on a 1x1 board fails but
leaves the single-square path stored; `validatePath()` then returns true
although the claim's CLOSED wrap-adjacency (last to first is a knight move)
does not hold — the code skips that check when the path has one element. -/
theorem C5_counterexample :
    ((Solver.create (Board.create 1 1)).solve 0 0
        TourType.CLOSED).2.validatePath = true ∧
    ¬ SpecValidPath
      ((Solver.create (Board.create 1 1)).solve 0 0 TourType.CLOSED).2 := by
  constructor
  · decide
  · simp only [SpecValidPath]
    rintro ⟨_, _, _, _, hwrap⟩
    exact absurd (hwrap (by decide)) (by decide)

/-- C5 (amended): on a board with positive dimensions (as the constructor
guarantees), `validatePath()` returns true iff the path covers the board,
is in bounds and duplicate-free, all consecutive steps are knight moves,
and — when the tour type is CLOSED and the path is longer than one — the
last position is a knight move from the first. -/
theorem C5_validatePath_spec (s : Solver)
    (hw : 0 < s.board.width) (hh : 0 < s.board.height) :
    s.validatePath = true ↔ SpecValidPathAmended s :=
  Solver.validatePath_iff s hw hh

theorem C5_validatePath_spec_witness :
    SpecValidPathAmended
      ((Solver.create (Board.create 1 1)).solve 0 0 TourType.CLOSED).2 :=
  (C5_validatePath_spec _ (by decide) (by decide)).mp (by decide)

/-- C8 counterexample: with an out-of-bounds start, the call before
`reset()` keeps the previously produced path while the rerun after
`reset()` leaves an empty path — the two runs return the same flag but not
identical results (the path lengths differ), contrary to the claim's
unconditional determinism. -/
theorem C8_counterexample :
    ((((Solver.create (Board.create 1 1)).solve 0 0 TourType.OPEN).2.solve
        5 5 TourType.OPEN).1 =
      (((((Solver.create (Board.create 1 1)).solve 0 0
        TourType.OPEN).2.solve 5 5 TourType.OPEN).2.reset).solve 5 5
          TourType.OPEN).1) ∧
    ((((Solver.create (Board.create 1 1)).solve 0 0 TourType.OPEN).2.solve
        5 5 TourType.OPEN).2.path.length ≠
      (((((Solver.create (Board.create 1 1)).solve 0 0
        TourType.OPEN).2.solve 5 5 TourType.OPEN).2.reset).solve 5 5
          TourType.OPEN).2.path.length) := by
  constructor
  · decide
  · decide

/-- C8 (amended): for an in-bounds start, calling `reset()` and then
`solve()` with the same arguments reproduces the previous `solve()` call
exactly — same flag, same path (hence same length and endpoints), same
final state. -/
theorem C8_reset_solve_eq (s : Solver) (startRow startCol : Int)
    (type : TourType)
    (hvalid : s.board.isValid startRow startCol = true) :
    (((s.solve startRow startCol type).2.reset).solve startRow startCol
      type) = s.solve startRow startCol type := by
  obtain ⟨hw, hh⟩ := Solver.solve_dims s startRow startCol type
  have hw2 : ((s.solve startRow startCol type).2.reset).board.width =
      s.board.width := hw
  have hh2 : ((s.solve startRow startCol type).2.reset).board.height =
      s.board.height := hh
  have hv2 : ((s.solve startRow startCol type).2.reset).board.isValid
      startRow startCol = true := by
    rw [Board.isValid_congr hw2 hh2]
    exact hvalid
  exact Solver.solve_eq_of_dims _ s startRow startCol type hw2 hh2 hv2

theorem C8_reset_solve_eq_witness :
    ((((Solver.create (Board.create 1 1)).solve 0 0
      TourType.OPEN).2.reset).solve 0 0 TourType.OPEN) =
      (Solver.create (Board.create 1 1)).solve 0 0 TourType.OPEN :=
  C8_reset_solve_eq _ 0 0 TourType.OPEN (by decide)

/-- C9: a failed search from a valid start leaves exactly the start on the
path, move number 1 at the start cell and 0 everywhere else, and the
backtrack counter equal to the number of undo events of that search. -/
theorem C9_failed_state (s : Solver) (startRow startCol : Int)
    (type : TourType)
    (hvalid : s.board.isValid startRow startCol = true)
    (hfail : (s.solve startRow startCol type).1 = false) :
    (s.solve startRow startCol type).2.path = [⟨startRow, startCol⟩] ∧
    (s.solve startRow startCol type).2.board.get startRow startCol = 1 ∧
    (∀ i j : Int, s.board.isValid i j = true →
      ¬(i = startRow ∧ j = startCol) →
      (s.solve startRow startCol type).2.board.get i j = 0) ∧
    (s.solve startRow startCol type).2.backtrackCount =
      Solver.undosF (Solver.mk (s.board.clear.set startRow startCol 1)
        [⟨startRow, startCol⟩] 0 startRow startCol type)
        (s.board.size + 1) startRow startCol 2 := by
  obtain ⟨hp, hb, hc⟩ :=
    Solver.solve_failure s startRow startCol type hvalid hfail
  have hcb : s.board.clear.isValid startRow startCol = true := hvalid
  have hcl : s.board.clear.cells.length =
      s.board.clear.width * s.board.clear.height := by
    simp [Board.clear]
  refine ⟨hp, ?_, ?_, hc⟩
  · rw [hb]
    rw [Board.get_set_self hcb hcl]
  · intro i j hv hne
    rw [hb]
    have hvc : s.board.clear.isValid i j = true := hv
    have hidx : s.board.clear.toIndex startRow startCol ≠
        s.board.clear.toIndex i j := by
      intro hcontra
      obtain ⟨h1, h2⟩ := Board.toIndex_inj hcb hvc hcontra
      exact hne ⟨h1.symm, h2.symm⟩
    rw [Board.get_set_ne hidx, Board.get_clear]

theorem C9_failed_state_witness :
    ((Solver.create (Board.create 2 2)).solve 0 0 TourType.OPEN).2.path =
      [Move.mk 0 0] ∧
    ((Solver.create (Board.create 2 2)).solve 0 0
      TourType.OPEN).2.board.get 0 0 = 1 ∧
    ((Solver.create (Board.create 2 2)).solve 0 0
      TourType.OPEN).2.board.get 1 1 = 0 ∧
    ((Solver.create (Board.create 2 2)).solve 0 0
      TourType.OPEN).2.backtrackCount =
      Solver.undosF (Solver.mk ((Board.create 2 2).clear.set 0 0 1)
        [Move.mk 0 0] 0 0 0 TourType.OPEN)
        ((Board.create 2 2).size + 1) 0 0 2 :=
  have h := C9_failed_state (Solver.create (Board.create 2 2)) 0 0
    TourType.OPEN (by decide) (by decide)
  ⟨h.1, h.2.1, h.2.2.1 1 1 (by decide) (by decide), h.2.2.2⟩

/-- C1 counterexample: on the 5x5 board the in-bounds start (0, 1) sits on
a minority-color square, so no open knight tour from it exists and `solve`
returns false — refuting "returns true for every in-bounds start on square
boards with W = H >= 5".  Proved by the parity invariant: a successful
return would carry a 25-square duplicate-free knight chain starting on an
odd square, which would need 13 odd squares while the board has 12. -/
theorem C1_counterexample :
    ((Solver.create (Board.create 5 5)).solve 0 1 TourType.OPEN).1 =
      false := by
  by_contra hcontra
  rw [Bool.not_eq_false] at hcontra
  obtain ⟨hlen, hchain, hnodup, hvalid, hhead⟩ :=
    Solver.solve_success _ 0 1 TourType.OPEN hcontra
  generalize hgen : ((Solver.create (Board.create 5 5)).solve 0 1
      TourType.OPEN).2.path = p at hlen hchain hnodup hvalid hhead
  have hsize : p.length = 25 := hlen
  have hcount := chain_countOdd p hchain
  rw [hhead, hsize] at hcount
  have hbit : (25 + (Option.some (Move.mk 0 1)).elim 0 oddBit) / 2 = 13 := by
    decide
  rw [hbit] at hcount
  have hsub : ∀ x ∈ (p.filter fun m =>
      decide ((m.row + m.col) % 2 = 1)), x ∈ oddCells := by
    intro x hx
    rw [List.mem_filter] at hx
    exact mem_oddCells (hvalid x hx.1) (by simpa using hx.2)
  have hle := nodup_subset_length (hnodup.filter _) hsub
  rw [hcount] at hle
  have h12 : oddCells.length = 12 := rfl
  omega

/-- C1 (amended): for every square board with W = H >= 5 and in-bounds
start, whenever `solve(startRow, startCol, OPEN)` returns true the produced
path has length W*H, contains no duplicate positions, and every consecutive
pair is a legal knight move.  (The unconditional "returns true" of the
original claim is refuted by the counterexample above.) -/
theorem C1_open_tour_valid (s : Solver) (startRow startCol : Int)
    (hsq : s.board.width = s.board.height) (h5 : 5 ≤ s.board.width)
    (hvalid : s.board.isValid startRow startCol = true)
    (hsolved : (s.solve startRow startCol TourType.OPEN).1 = true) :
    (s.solve startRow startCol TourType.OPEN).2.path.length =
      s.board.width * s.board.height ∧
    (s.solve startRow startCol TourType.OPEN).2.path.Nodup ∧
    List.Chain' knight (s.solve startRow startCol TourType.OPEN).2.path := by
  obtain ⟨h1, h2, h3, _, _⟩ :=
    Solver.solve_success s startRow startCol TourType.OPEN hsolved
  exact ⟨h1, h3, h2⟩

theorem C1_open_tour_valid_witness :
    ((Solver.create (Board.create 5 5)).solve 0 0
      TourType.OPEN).2.path.length = 25 ∧
    ((Solver.create (Board.create 5 5)).solve 0 0
      TourType.OPEN).2.path.Nodup ∧
    List.Chain' knight ((Solver.create (Board.create 5 5)).solve 0 0
      TourType.OPEN).2.path :=
  C1_open_tour_valid (Solver.create (Board.create 5 5)) 0 0 rfl
    (by decide) (by decide) (by decide)

/-! ### Remaining witnesses -/

theorem C2_isSolution_iff_witness :
    (Solver.mk ((Board.create 1 1).set 0 0 1) [Move.mk 0 0] 0 0 0
      TourType.OPEN).isSolution 2 = true :=
  (C2_isSolution_iff
    (Solver.mk ((Board.create 1 1).set 0 0 1) [Move.mk 0 0] 0 0 0
      TourType.OPEN) 2 (by decide)).mpr ⟨by decide, Or.inl rfl⟩

theorem C3_prune_skips_witness :
    Solver.tryMoves (fun s' _ _ _ => (false, s'))
      (Solver.mk ((Board.create 5 5).set 2 1 1) [] 0 0 0 TourType.OPEN)
      [Move.mk 1 2] 2 2 =
      Solver.tryMoves (fun s' _ _ _ => (false, s'))
        (Solver.mk ((Board.create 5 5).set 2 1 1) [] 0 0 0 TourType.OPEN)
        [] 2 2 ∧
    ((Solver.mk ((Board.create 5 5).set 2 1 1) [] 0 0 0
        TourType.OPEN).createsDeadEnd (Move.mk 1 2) 2).2 =
      (Board.create 5 5).set 2 1 1 :=
  C3_prune_skips (fun s' _ _ _ => (false, s'))
    (Solver.mk ((Board.create 5 5).set 2 1 1) [] 0 0 0 TourType.OPEN)
    (Move.mk 1 2) [] 2 2 (by decide) (by decide)
    ⟨Move.mk 0 0, by decide, by decide⟩

theorem C6_invalid_start_witness :
    (Solver.create (Board.create 1 1)).solve 5 5 TourType.OPEN =
      (false, Solver.create (Board.create 1 1)) :=
  C6_invalid_start (Solver.create (Board.create 1 1)) 5 5 TourType.OPEN
    (by decide)

theorem C10_stats_empty_witness :
    (Solver.create (Board.create 3 3)).getPathStatistics = ⟨0, 0, 0, 0, 0⟩ :=
  C10_stats_empty (Solver.create (Board.create 3 3)) rfl

end KnightsTour
